import Mathlib

/-!
Verification of the livealpha quota-aware ingestion scheduler.

Shallow embedding of:
- `RateLimitManager` (src/unnamed/part_010): per-endpoint window counters backed
  by a durable store, an in-memory status cache, a priority request queue and the
  serialized drain loop `processQueue`.
- `TweetCache` (src/unnamed/part_005): per-account freshness cache.
- `TrackerService` (src/unnamed/part_005): `runSmartBackfill` loop and
  `syncLatestTweets` cooldown bookkeeping.

Machine integers of the source (JS numbers used as integer millisecond
timestamps and counters) are modelled as `Nat`/`Int`; fallible database calls
are modelled by explicit success flags or `Except`-style oracles; the single
serialized drain loop is modelled as a fold over iteration descriptors carrying
the (arbitrary) real-time durations between its observable events.
-/

/-! ## RateLimitManager: configuration (constructor of part_010) -/

/-- One endpoint's configured limit: `{ requests, windowMs }`. -/
structure LimitCfg where
  requests : Nat
  windowMs : Nat
deriving DecidableEq

/-- `this.rateLimits.basic` from the constructor. -/
def basicLimits : String → Option LimitCfg := fun e =>
  if e = "userTimeline" then some ⟨75, 15 * 60 * 1000⟩
  else if e = "userLookup" then some ⟨300, 15 * 60 * 1000⟩
  else if e = "searchStream" then some ⟨50, 15 * 60 * 1000⟩
  else if e = "streamRules" then some ⟨25, 15 * 60 * 1000⟩
  else none

/-- `this.rateLimits.pro` from the constructor (the default plan). -/
def proLimits : String → Option LimitCfg := fun e =>
  if e = "userTimeline" then some ⟨280, 15 * 60 * 1000⟩
  else if e = "userLookup" then some ⟨900, 15 * 60 * 1000⟩
  else if e = "searchStream" then some ⟨45, 15 * 60 * 1000⟩
  else if e = "streamRules" then some ⟨20, 15 * 60 * 1000⟩
  else none

/-- Cache/database key: `accountId ? endpoint + "_" + accountId : endpoint`. -/
def rlKey (endpoint : String) (accountId : Option String) : String :=
  match accountId with
  | some a => endpoint ++ "_" ++ a
  | none => endpoint

/-- `Math.floor(now / limit.windowMs) * limit.windowMs`. -/
def windowStart (windowMs now : Nat) : Nat := now / windowMs * windowMs

/-! ## RateLimitManager: state (`rateLimitCache` and the `rate_limits` table) -/

/-- One entry of `this.rateLimitCache` (as written by `canMakeRequest`,
`recordRequest` and `updateFromTwitterHeaders`). -/
structure CacheEntry where
  endpoint : String
  windowStart : Nat
  count : Nat
  limit : Nat
  remaining : Int
  resetTime : Nat
  lastUpdated : Nat
deriving DecidableEq

/-- Mutable state of the manager: the durable `rate_limits` table
(`endpoint_key`, `window_start` ↦ `requests_count`, absent rows read as 0) and
the in-memory `rateLimitCache`. -/
structure RLState where
  db : String → Nat → Nat
  cache : String → Option CacheEntry

/-- The empty starting state: no durable rows, empty cache. -/
def rlS0 : RLState := ⟨fun _ _ => 0, fun _ => none⟩

/-- `canMakeRequest(endpoint, accountId)` at time `now`.  `readOk` tells whether
the `getCurrentUsage` database read succeeds (reading the value `s.db`); on a
thrown error the catch block returns `false`.  Unknown endpoints return `true`
with no state change. -/
def canMakeRequest (limits : String → Option LimitCfg) (endpoint : String)
    (accountId : Option String) (now : Nat) (readOk : Bool) (s : RLState) :
    Bool × RLState :=
  let key := rlKey endpoint accountId
  match limits endpoint with
  | none => (true, s)
  | some limit =>
      let ws := windowStart limit.windowMs now
      if readOk then
        let count := s.db key ws
        let remaining : Int := (limit.requests : Int) - (count : Int)
        let entry : CacheEntry :=
          { endpoint := endpoint
            windowStart := ws
            count := count
            limit := limit.requests
            remaining := remaining
            resetTime := ws + limit.windowMs
            lastUpdated := now }
        (decide (0 < remaining),
         { s with cache := fun k => if k = key then some entry else s.cache k })
      else
        (false, s)

/-- Twitter rate-limit response headers, as the numeric values of
`x-rate-limit-remaining` / `x-rate-limit-reset` / `x-rate-limit-limit`
(`none` when the header is absent). -/
structure TwitterHeaders where
  rateLimitRemaining : Option Nat
  rateLimitReset : Option Nat
  rateLimitLimit : Option Nat
deriving DecidableEq

/-- `parseInt(headers[...]) || null`: an absent header stays `null`, and a
numeric value of `0` also collapses to `null` because `0` is falsy. -/
def parseHdrNum (h : Option Nat) : Option Nat :=
  match h with
  | some 0 => none
  | x => x

/-- `updateFromTwitterHeaders(endpoint, headers, accountId)`: when both
remaining and reset parse as non-null, overwrite `remaining`, `resetTime`
(seconds → ms) and, when present, `limit` of the existing cache entry.  The
durable table is untouched. -/
def updateFromTwitterHeaders (endpoint : String) (headers : TwitterHeaders)
    (accountId : Option String) (now : Nat) (s : RLState) : RLState :=
  let key := rlKey endpoint accountId
  let remaining := parseHdrNum headers.rateLimitRemaining
  let resetTime := parseHdrNum headers.rateLimitReset
  let lim := parseHdrNum headers.rateLimitLimit
  match remaining, resetTime with
  | some r, some rt =>
      match s.cache key with
      | some c =>
          let c2 : CacheEntry :=
            { c with
              remaining := (r : Int)
              resetTime := rt * 1000
              limit := (match lim with | some l => l | none => c.limit)
              lastUpdated := now }
          { s with cache := fun k => if k = key then some c2 else s.cache k }
      | none => s
  | _, _ => s

/-- `recordRequest(endpoint, accountId, responseHeaders)` at time `now`.
`writeOk` tells whether the `incrementUsage` insert succeeds; a thrown error is
swallowed and nothing is updated.  On success the durable counter of the
current window is incremented, the cache entry (when it is for the same window)
is bumped, and provider headers, when given, are applied last. -/
def recordRequest (limits : String → Option LimitCfg) (endpoint : String)
    (accountId : Option String) (headers : Option TwitterHeaders)
    (now : Nat) (writeOk : Bool) (s : RLState) : RLState :=
  match limits endpoint with
  | none => s
  | some limit =>
      let ws := windowStart limit.windowMs now
      let key := rlKey endpoint accountId
      if writeOk then
        let s1 : RLState :=
          { s with db := fun k w =>
              (if k = key ∧ w = ws then s.db k w + 1 else s.db k w) }
        let s2 : RLState :=
          { s1 with cache := fun k =>
              if k = key then
                match s1.cache key with
                | some c =>
                    if c.windowStart = ws then
                      some { c with
                             count := c.count + 1
                             remaining :=
                               max 0 ((limit.requests : Int) -
                                 ((c.count + 1 : Nat) : Int))
                             lastUpdated := now }
                    else some c
                | none => none
              else s1.cache k }
        match headers with
        | some h => updateFromTwitterHeaders endpoint h accountId now s2
        | none => s2
      else s

/-- `getWaitTime(endpoint, accountId)`: time until the cached entry's
`resetTime`, 0 when there is no entry or quota remains. -/
def getWaitTime (endpoint : String) (accountId : Option String) (now : Nat)
    (s : RLState) : Nat :=
  match s.cache (rlKey endpoint accountId) with
  | none => 0
  | some c => if 0 < c.remaining then 0 else c.resetTime - now

/-- Modelled from the spec (§4.1/C4 wording), for comparison with the code:
"subsequent admission decisions for that window use the provider-reported
values": an admission decision read off the cached (provider-overridden)
entry, admitting exactly when its `remaining` is positive. -/
def specProviderAdmission (s : RLState) (key : String) : Option Bool :=
  (s.cache key).map (fun c => decide (0 < c.remaining))

/-! ## processQueue: the serialized drain loop (part_010 lines 253-319)

One iteration, for requests of a single `(endpoint, accountId)` pair, with
real time made explicit.  Requests of other endpoint keys touch other `db` /
`cache` keys only, and their processing time is absorbed by the arbitrary
duration fields below. -/

/-- One drain-loop iteration: whether the database read of the admission check
and the database write of the recording succeed, whether `requestFn` resolves
(`ok = false` covers both the 429 and the rejection paths, neither of which
records), the provider headers of the result, and the elapsed milliseconds
`a` (between the admission check and the `getWaitTime` call), `b` (between
the end of the admission phase and the record write) and `post` (delays after
the iteration: politeness sleep, backoff, scheduling). -/
structure ProcIter where
  readOk : Bool
  writeOk : Bool
  ok : Bool
  headers : Option TwitterHeaders
  a : Nat
  b : Nat
  post : Nat
deriving DecidableEq

/-- One iteration of the `while` body of `processQueue` on `(now, state)`:
check `canMakeRequest`; when it refuses, sleep for `getWaitTime` computed on
the state the check produced; execute; on success `recordRequest` with the
result's headers and resolve. -/
def procStep (limits : String → Option LimitCfg) (endpoint : String)
    (acc : Option String) (it : ProcIter) (p : Nat × RLState) : Nat × RLState :=
  let r := canMakeRequest limits endpoint acc p.1 it.readOk p.2
  let t := if r.1 then p.1 else
    (p.1 + it.a) + getWaitTime endpoint acc (p.1 + it.a) r.2
  let tRec := t + it.b
  if it.ok then
    (tRec + 50 + it.post,
     recordRequest limits endpoint acc it.headers tRec it.writeOk r.2)
  else
    (tRec + it.post, r.2)

/-- The drain loop: fold `procStep` over the iteration descriptors. -/
def procRun (limits : String → Option LimitCfg) (endpoint : String)
    (acc : Option String) (its : List ProcIter) (p : Nat × RLState) :
    Nat × RLState :=
  its.foldl (fun q it => procStep limits endpoint acc it q) p

/-! ## queueRequest / processQueue: queue order and throttle handling -/

/-- A queued request, identified by `id`, as far as ordering is concerned. -/
structure QueuedRequest where
  id : Nat
  priority : Int
deriving DecidableEq

/-- Stable insertion of `r` into a priority-descending list: `r` goes in front
of the first strictly lower-priority element, hence after every element of its
own band that is already present. -/
def insertDesc (r : QueuedRequest) : List QueuedRequest → List QueuedRequest
  | [] => [r]
  | x :: xs => if x.priority < r.priority then r :: x :: xs else x :: insertDesc r xs

/-- `this.requestQueue.sort((a, b) => b.priority - a.priority)`:
`Array.prototype.sort` is stable (ES2019), and a stable sort is the unique
function that orders by the comparator while preserving the relative order of
comparator-equal elements; it is modelled by a stable insertion sort. -/
def jsSortDesc (l : List QueuedRequest) : List QueuedRequest :=
  l.foldl (fun acc x => insertDesc x acc) []

/-- `queueRequest`: push at the end, then sort by priority descending. -/
def queueRequestPush (q : List QueuedRequest) (r : QueuedRequest) :
    List QueuedRequest :=
  jsSortDesc (q ++ [r])

/-- The 429 handler of `processQueue` (lines 293-310): decrement the priority,
floored at 0, and `unshift` the request back — the front of the whole queue. -/
def requeue429 (r : QueuedRequest) (queue : List QueuedRequest) :
    List QueuedRequest :=
  { r with priority := max 0 (r.priority - 1) } :: queue

/-- Modelled from the spec (§4.2 throttle handling wording), for comparison
with `requeue429`: "re-inserts it at the tail of its (now lower) priority
band" — the decremented request goes after every request of priority at least
its own. -/
def specRequeueTailOfBand (r : QueuedRequest) :
    List QueuedRequest → List QueuedRequest
  | [] => [{ r with priority := max 0 (r.priority - 1) }]
  | x :: xs =>
      if max 0 (r.priority - 1) ≤ x.priority then
        x :: specRequeueTailOfBand r xs
      else
        { r with priority := max 0 (r.priority - 1) } :: x :: xs

/-- Outcome of one `requestFn()` execution inside the drain loop. -/
inductive ExecOutcome
  | ok
  | throttled
  | failed
deriving DecidableEq

/-- Observable drain-loop events. -/
inductive QEvent
  | executed (id : Nat) (priority : Int)
  | resolved (id : Nat)
  | rejected (id : Nat)
  | paused (ms : Nat)
deriving DecidableEq

/-- `processQueue` under always-available quota: take the queue head, execute
it, resolve on success, reject on a non-429 error, and on a 429 pause 1000ms
and requeue via `requeue429` without rejecting.  The outcome list doubles as
fuel. -/
def drainQueue : List ExecOutcome → List QueuedRequest → List QEvent
  | _, [] => []
  | [], _ :: _ => []
  | o :: os, r :: rest =>
    match o with
    | .ok => .executed r.id r.priority :: .resolved r.id :: drainQueue os rest
    | .failed => .executed r.id r.priority :: .rejected r.id :: drainQueue os rest
    | .throttled =>
        .executed r.id r.priority :: .paused 1000 ::
          drainQueue os (requeue429 r rest)

/-! ## TweetCache (part_005): addNewTweet -/

/-- A cached tweet: its id and `created_at` as a millisecond timestamp. -/
structure Tweet where
  id : String
  created_at : Int
deriving DecidableEq

/-- `this.MAX_TWEETS_PER_ACCOUNT`. -/
def MAX_TWEETS_PER_ACCOUNT : Nat := 50

/-- 24 hours in milliseconds. -/
def DAY_MS : Int := 24 * 60 * 60 * 1000

/-- One account's slot of the cache: the `cache` entry (`[]` when absent, as
`this.cache.get(username) || []` reads it) and the `lastFetch` timestamp. -/
structure TCEntry where
  cache : List Tweet
  lastFetch : Option Int
deriving DecidableEq

/-- `addNewTweet(username, tweet)` at time `now`: return unchanged if a cached
tweet has the same id; otherwise `unshift` the tweet, filter to the last 24
hours, `slice(0, MAX_TWEETS_PER_ACCOUNT)`, and refresh `lastFetch`. -/
def addNewTweet (now : Int) (s : TCEntry) (t : Tweet) : TCEntry :=
  if s.cache.any (fun x => decide (x.id = t.id)) then s
  else
    let fresh :=
      ((t :: s.cache).filter (fun x => decide (now - DAY_MS < x.created_at))).take
        MAX_TWEETS_PER_ACCOUNT
    { cache := fresh, lastFetch := some now }

/-- "sorted newest-first": each tweet's timestamp is at least the next one's. -/
def isSortedNewestFirst : List Tweet → Bool
  | [] => true
  | [_] => true
  | a :: b :: l => decide (b.created_at ≤ a.created_at) && isSortedNewestFirst (b :: l)

/-! ## TrackerService.runSmartBackfill (part_005 lines 450-511) -/

/-- One entry of `backfillState.accountProgress`. -/
structure AccountProgress where
  username : String
  lastBackfillId : Option String
  completed : Bool
deriving DecidableEq

/-- The loop state: `currentAccount` index and the progress list. -/
structure BackfillState where
  currentAccount : Nat
  accountProgress : List AccountProgress
deriving DecidableEq

/-- Result of one `fetchLatestTweets(username, false, lastBackfillId)` call:
the returned tweet ids (oldest last) or a thrown error. -/
inductive FetchResult
  | ok (tweets : List String)
  | err
deriving DecidableEq

/-- Observable backfill events: a fetch for the account at a progress index,
or the full-cycle reset. -/
inductive BEvent
  | fetch (account : Nat)
  | reset
deriving DecidableEq

/-- The `while (requestsUsed < maxBackfillRequests && this.isRunning)` loop of
`runSmartBackfill`, with `isRunning` held true, fetch results supplied by the
oracle `fetch` indexed by fetch count, and `fuel` bounding the iterations (the
real loop terminates because every fetch iteration raises `requestsUsed`).
A completed account is skipped: the index advances and, when it has wrapped to
`startAccount`, every account's `completed` is cleared and the loop breaks.
Otherwise a fetch is issued: on a nonempty result the cursor moves to the last
(oldest) returned id and `requestsUsed` rises by 2; on an empty result the
account is marked `completed`; on an error `requestsUsed` rises by 1. -/
def backfillLoop (fetch : Nat → FetchResult) (budget : Nat) (startAccount : Nat) :
    Nat → Nat → Nat → BackfillState → BackfillState × List BEvent
  | 0, _, _, st => (st, [])
  | fuel + 1, fetchIdx, requestsUsed, st =>
    if requestsUsed < budget then
      match st.accountProgress.get? st.currentAccount with
      | none => (st, [])
      | some acc =>
        if acc.completed then
          let nxt := (st.currentAccount + 1) % st.accountProgress.length
          if nxt = startAccount then
            ({ currentAccount := nxt
               accountProgress :=
                 st.accountProgress.map (fun a => { a with completed := false }) },
             [BEvent.reset])
          else
            backfillLoop fetch budget startAccount fuel fetchIdx requestsUsed
              { st with currentAccount := nxt }
        else
          let i := st.currentAccount
          let step :=
            match fetch fetchIdx with
            | .ok ts =>
                match ts.getLast? with
                | some lastId =>
                    (requestsUsed + 2, { acc with lastBackfillId := some lastId })
                | none =>
                    (requestsUsed + 2, { acc with completed := true })
            | .err => (requestsUsed + 1, acc)
          let st2 : BackfillState :=
            { currentAccount := (i + 1) % st.accountProgress.length
              accountProgress := st.accountProgress.set i step.2 }
          let rec2 := backfillLoop fetch budget startAccount fuel (fetchIdx + 1) step.1 st2
          (rec2.1, BEvent.fetch i :: rec2.2)
    else (st, [])

/-- No fetch of account index `i` occurs before the first reset event. -/
def noFetchBeforeReset (i : Nat) : List BEvent → Prop
  | [] => True
  | BEvent.reset :: _ => True
  | BEvent.fetch j :: rest => j ≠ i ∧ noFetchBeforeReset i rest

/-! ## TrackerService.syncLatestTweets (part_005 lines 284-331) -/

/-- Per-account sync bookkeeping: `this.accountSync` (username ↦ lastSyncMs). -/
structure SyncState where
  accountSync : String → Option Nat

/-- `this.minSyncIntervalMs`. -/
def minSyncIntervalMs : Nat := 45000

/-- Outcome of one account's fetch-and-save inside `syncLatestTweets`:
`ok` when `fetchLatestTweets`, `saveTweetsToDb` and the notifications all
succeed, `err` when any of them throws (caught and logged). -/
inductive SyncFetch
  | ok (count : Nat)
  | err
deriving DecidableEq

/-- One iteration of the per-username loop of `syncLatestTweets`: skip when the
cooldown has not elapsed (`Date.now() - (accountSync.get(u) || 0) <
minSyncIntervalMs`); otherwise attempt the fetch; only on success set
`accountSync` to `nowSet` (the `Date.now()` of the `set` call).  Returns the
new state and whether a fetch was attempted. -/
def syncAccount (now nowSet : Nat) (outcome : SyncFetch) (st : SyncState)
    (u : String) : SyncState × Bool :=
  let lastSync := (st.accountSync u).getD 0
  if now - lastSync < minSyncIntervalMs then (st, false)
  else
    match outcome with
    | .ok _ => (⟨fun v => if v = u then some nowSet else st.accountSync v⟩, true)
    | .err => (st, true)

/-- Priority-descending order of a queue (the order `processQueue` consumes). -/
def SortedDesc (l : List QueuedRequest) : Prop :=
  l.Pairwise (fun a b => b.priority ≤ a.priority)

/-- A sequence of `queueRequest` calls starting from the empty queue. -/
def enqueueAll (rs : List QueuedRequest) : List QueuedRequest :=
  rs.foldl queueRequestPush []

/-- The ids in execution order when every request succeeds and quota is always
available: one outcome per queued request, `executed` events projected out. -/
def execOrder (q : List QueuedRequest) : List Nat :=
  (drainQueue (List.replicate q.length ExecOutcome.ok) q).filterMap
    (fun e => match e with | QEvent.executed i _ => some i | _ => none)

/-! ## Window arithmetic -/

theorem windowStart_le (w t : Nat) : windowStart w t ≤ t :=
  Nat.div_mul_le_self t w

theorem windowStart_mono (w : Nat) {t u : Nat} (h : t ≤ u) :
    windowStart w t ≤ windowStart w u :=
  Nat.mul_le_mul_right w (Nat.div_le_div_right h)

theorem lt_windowStart_add {w : Nat} (hw : 0 < w) (t : Nat) :
    t < windowStart w t + w := by
  have h1 := Nat.div_add_mod t w
  have h2 := Nat.mod_lt t hw
  have h3 : w * (t / w) = t / w * w := Nat.mul_comm _ _
  unfold windowStart
  omega

theorem windowStart_add_w {w : Nat} (hw : 0 < w) (t : Nat) :
    windowStart w (windowStart w t + w) = windowStart w t + w := by
  unfold windowStart
  rw [show t / w * w + w = (t / w + 1) * w by ring, Nat.mul_div_cancel _ hw]

/-! ## Basic facts about canMakeRequest / recordRequest -/

theorem canMakeRequest_fst (limits : String → Option LimitCfg)
    (endpoint : String) (acc : Option String) (now : Nat) (s : RLState)
    (limit : LimitCfg) (h : limits endpoint = some limit) :
    (canMakeRequest limits endpoint acc now true s).1 =
      decide (s.db (rlKey endpoint acc) (windowStart limit.windowMs now) <
        limit.requests) := by
  simp only [canMakeRequest, h]
  exact decide_eq_decide.mpr (by omega)

theorem updateFromTwitterHeaders_db (endpoint : String)
    (headers : TwitterHeaders) (acc : Option String) (now : Nat) (s : RLState) :
    (updateFromTwitterHeaders endpoint headers acc now s).db = s.db := by
  unfold updateFromTwitterHeaders
  dsimp only
  split
  · split <;> rfl
  · rfl

/-- C10: for an endpoint key absent from the configured limits table,
`canMakeRequest` admits the request with no quota check and no state change,
and `recordRequest` returns without recording anything, so calls to unknown
endpoints are entirely unmetered. -/
theorem unknown_endpoint_unmetered (limits : String → Option LimitCfg)
    (endpoint : String) (acc : Option String) (headers : Option TwitterHeaders)
    (now : Nat) (readOk writeOk : Bool) (s : RLState)
    (h : limits endpoint = none) :
    canMakeRequest limits endpoint acc now readOk s = (true, s) ∧
    recordRequest limits endpoint acc headers now writeOk s = s := by
  constructor <;> simp [canMakeRequest, recordRequest, h]

/-- Witness for C10 at the unconfigured endpoint key "tweetLookup". -/
theorem unknown_endpoint_unmetered_w :
    canMakeRequest proLimits "tweetLookup" none 5 true rlS0 = (true, rlS0) ∧
    recordRequest proLimits "tweetLookup" none none 5 true rlS0 = rlS0 :=
  unknown_endpoint_unmetered proLimits "tweetLookup" none none 5 true true rlS0
    (by decide)

/-- C6: for a metered endpoint, when the durable-storage read of the admission
check fails (throws), `canMakeRequest` returns false — it never admits a
request when the quota count cannot be read. -/
theorem admission_fails_closed (limits : String → Option LimitCfg)
    (endpoint : String) (acc : Option String) (now : Nat) (s : RLState)
    (limit : LimitCfg) (h : limits endpoint = some limit) :
    (canMakeRequest limits endpoint acc now false s).1 = false := by
  simp [canMakeRequest, h]

/-- Witness for C6: a failing read on the configured "userTimeline" endpoint. -/
theorem admission_fails_closed_w :
    (canMakeRequest proLimits "userTimeline" none 123 false rlS0).1 = false :=
  admission_fails_closed proLimits "userTimeline" none 123 rlS0
    ⟨280, 15 * 60 * 1000⟩ (by decide)

/-- C5: an admission check made after the window boundary has passed observes
count 0 for the new window — whatever the prior window's count was — because
the window start is `floor(now / windowMs) * windowMs` and usage is keyed by
that window start; with a positive configured limit the check admits. -/
theorem window_rollover_zero (limits : String → Option LimitCfg)
    (endpoint : String) (acc : Option String) (limit : LimitCfg)
    (t1 t2 : Nat) (s : RLState)
    (h : limits endpoint = some limit)
    (hlt : windowStart limit.windowMs t1 < windowStart limit.windowMs t2)
    (hfresh : ∀ w, windowStart limit.windowMs t1 < w →
      s.db (rlKey endpoint acc) w = 0)
    (hreq : 0 < limit.requests) :
    (canMakeRequest limits endpoint acc t2 true s).1 = true ∧
    ((canMakeRequest limits endpoint acc t2 true s).2.cache
        (rlKey endpoint acc)).map CacheEntry.count = some 0 := by
  have hz := hfresh _ hlt
  constructor
  · rw [canMakeRequest_fst limits endpoint acc t2 s limit h, hz]
    simpa using hreq
  · simp [canMakeRequest, h, hz]

/-- C4 counterexample: concrete run on "userTimeline" (pro plan, limit 280).
The durable count stands at 279; an admission check caches it; a recording
carries provider headers reporting 100 remaining, which the cache duly holds
(`specProviderAdmission` would admit).  The next admission check in the same
window nevertheless returns false: it re-reads the durable count (now 280)
against the configured limit and ignores the provider-reported values. -/
theorem provider_override_ignored_cex :
    let s0 : RLState := ⟨fun _ w => if w = 0 then 279 else 0, fun _ => none⟩
    let s1 := (canMakeRequest proLimits "userTimeline" none 0 true s0).2
    let s2 := recordRequest proLimits "userTimeline" none
      (some ⟨some 100, some 900, some 280⟩) 10 true s1
    specProviderAdmission s2 "userTimeline" = some true ∧
      (canMakeRequest proLimits "userTimeline" none 20 true s2).1 = false := by
  decide

/-- C4 amended: provider-reported remaining/limit/reset values override only
the in-memory cache entry (the view used by `getWaitTime` and status
reporting); the durable counters are untouched by the header update, the
recorded durable state does not depend on the headers at all, and a subsequent
admission decision for the window is `count < limit` computed from the durable
count and the configured limit, not from the provider-reported values. -/
theorem provider_override_cache_only (limits : String → Option LimitCfg)
    (endpoint : String) (acc : Option String) (headers : TwitterHeaders)
    (now1 now2 : Nat) (s : RLState) (limit : LimitCfg)
    (h : limits endpoint = some limit) :
    ((canMakeRequest limits endpoint acc now2 true
        (recordRequest limits endpoint acc (some headers) now1 true s)).1 =
      decide ((recordRequest limits endpoint acc (some headers) now1 true s).db
        (rlKey endpoint acc) (windowStart limit.windowMs now2) <
        limit.requests)) ∧
    (updateFromTwitterHeaders endpoint headers acc now1 s).db = s.db ∧
    (recordRequest limits endpoint acc (some headers) now1 true s).db =
      (recordRequest limits endpoint acc none now1 true s).db := by
  refine ⟨canMakeRequest_fst limits endpoint acc now2 _ limit h,
    updateFromTwitterHeaders_db endpoint headers acc now1 s, ?_⟩
  simp [recordRequest, h, updateFromTwitterHeaders_db]

/-- Witness for C4 amended, on "userTimeline" with concrete headers. -/
theorem provider_override_cache_only_w :
    ((canMakeRequest proLimits "userTimeline" none 7 true
        (recordRequest proLimits "userTimeline" none
          (some ⟨some 3, some 9, some 40⟩) 2 true rlS0)).1 =
      decide ((recordRequest proLimits "userTimeline" none
        (some ⟨some 3, some 9, some 40⟩) 2 true rlS0).db
        (rlKey "userTimeline" none) (windowStart 900000 7) < 280)) ∧
    (updateFromTwitterHeaders "userTimeline" ⟨some 3, some 9, some 40⟩ none 2
      rlS0).db = rlS0.db ∧
    (recordRequest proLimits "userTimeline" none
        (some ⟨some 3, some 9, some 40⟩) 2 true rlS0).db =
      (recordRequest proLimits "userTimeline" none none 2 true rlS0).db :=
  provider_override_cache_only proLimits "userTimeline" none
    ⟨some 3, some 9, some 40⟩ 2 7 rlS0 ⟨280, 15 * 60 * 1000⟩ (by decide)

/-- C2 counterexample: a priority-3 request is throttled while a priority-5
request waits.  Tail-of-band re-insertion (the spec's wording, modelled by
`specRequeueTailOfBand`) would place the decremented request after the
priority-5 one; the code's `unshift` places it at the head of the whole queue,
and the drain loop re-executes it (at priority 2) before the priority-5
request. -/
theorem throttle_requeue_head_cex :
    requeue429 ⟨1, 3⟩ [⟨2, 5⟩] ≠ specRequeueTailOfBand ⟨1, 3⟩ [⟨2, 5⟩] ∧
    drainQueue [ExecOutcome.throttled, ExecOutcome.ok, ExecOutcome.ok]
        [⟨1, 3⟩, ⟨2, 5⟩] =
      [QEvent.executed 1 3, QEvent.paused 1000, QEvent.executed 1 2,
       QEvent.resolved 1, QEvent.executed 2 5, QEvent.resolved 2] := by
  decide

/-- C2 amended: on a 429 the scheduler does not reject the caller's future; it
decrements the request's priority (floored at 0), pauses the whole drain loop
for a fixed 1000ms backoff, and re-inserts the request at the front of the
entire queue — so on the next iteration the same request is retried first,
ahead of every waiting request, higher-priority ones included; a retry that
then succeeds is resolved before anything else runs. -/
theorem throttle_requeue_front (r r2 : QueuedRequest)
    (rest : List QueuedRequest) (os : List ExecOutcome) :
    drainQueue (ExecOutcome.throttled :: ExecOutcome.ok :: os)
        (r :: r2 :: rest) =
      QEvent.executed r.id r.priority :: QEvent.paused 1000 ::
        QEvent.executed r.id (max 0 (r.priority - 1)) :: QEvent.resolved r.id ::
          drainQueue os (r2 :: rest) := by
  simp [drainQueue, requeue429]

/-! ## Queue order: stable insertion facts -/

theorem mem_insertDesc {y r : QueuedRequest} :
    ∀ {l : List QueuedRequest}, y ∈ insertDesc r l → y = r ∨ y ∈ l
  | [], h => by simpa [insertDesc] using h
  | x :: xs, h => by
      by_cases hx : x.priority < r.priority
      · simp [insertDesc, hx] at h
        rcases h with h | h | h
        · exact Or.inl h
        · exact Or.inr (by simp [h])
        · exact Or.inr (by simp [h])
      · simp [insertDesc, hx] at h
        rcases h with h | h
        · exact Or.inr (by simp [h])
        · rcases mem_insertDesc h with h | h
          · exact Or.inl h
          · exact Or.inr (by simp [h])

theorem insertDesc_sorted (r : QueuedRequest) :
    ∀ {l : List QueuedRequest}, SortedDesc l → SortedDesc (insertDesc r l)
  | [], _ => by simp [insertDesc, SortedDesc]
  | x :: xs, h => by
      simp only [SortedDesc] at h ⊢
      rcases (List.pairwise_cons.mp h) with ⟨hx, hxs⟩
      by_cases hlt : x.priority < r.priority
      · simp only [insertDesc, if_pos hlt]
        refine List.pairwise_cons.mpr ⟨?_, h⟩
        intro y hy
        rcases List.mem_cons.mp hy with hy | hy
        · exact hy ▸ le_of_lt hlt
        · exact le_trans (hx y hy) (le_of_lt hlt)
      · simp only [insertDesc, if_neg hlt]
        refine List.pairwise_cons.mpr ⟨?_, ?_⟩
        · intro y hy
          rcases mem_insertDesc hy with hy | hy
          · exact hy ▸ le_of_not_lt hlt
          · exact hx y hy
        · have := insertDesc_sorted r (l := xs) hxs
          simpa [SortedDesc] using this

theorem insertDesc_filter (p : Int) (r : QueuedRequest) :
    ∀ {l : List QueuedRequest}, SortedDesc l →
    (insertDesc r l).filter (fun x => decide (x.priority = p)) =
      if r.priority = p
      then l.filter (fun x => decide (x.priority = p)) ++ [r]
      else l.filter (fun x => decide (x.priority = p))
  | [], _ => by
      by_cases hr : r.priority = p <;> simp [insertDesc, hr]
  | x :: xs, h => by
      rcases (List.pairwise_cons.mp h) with ⟨hx, hxs⟩
      by_cases hlt : x.priority < r.priority
      · simp only [insertDesc, if_pos hlt]
        by_cases hr : r.priority = p
        · have hnil : (x :: xs).filter (fun y => decide (y.priority = p)) = [] := by
            refine List.filter_eq_nil_iff.mpr ?_
            intro y hy
            have hyx : y.priority ≤ x.priority := by
              rcases List.mem_cons.mp hy with hy | hy
              · exact hy ▸ le_refl _
              · exact hx y hy
            simp only [decide_eq_true_eq]
            omega
          simp [hr, hnil]
        · simp [hr]
      · simp only [insertDesc, if_neg hlt]
        by_cases hxp : x.priority = p <;>
          by_cases hr : r.priority = p <;>
            simp [List.filter, hxp, hr, insertDesc_filter p r hxs]

theorem insertDesc_of_le {r : QueuedRequest} :
    ∀ {l : List QueuedRequest}, (∀ a ∈ l, r.priority ≤ a.priority) →
      insertDesc r l = l ++ [r]
  | [], _ => rfl
  | x :: xs, h => by
      have hx : ¬ x.priority < r.priority :=
        not_lt_of_le (h x (List.mem_cons_self x xs))
      simp only [insertDesc, if_neg hx, List.cons_append, List.cons.injEq,
        true_and]
      exact insertDesc_of_le (fun a ha => h a (List.mem_cons_of_mem x ha))

theorem jsSortDesc_sorted (l : List QueuedRequest) : SortedDesc (jsSortDesc l) := by
  suffices h : ∀ (l acc : List QueuedRequest), SortedDesc acc →
      SortedDesc (l.foldl (fun a x => insertDesc x a) acc) by
    exact h l [] (by simp [SortedDesc])
  intro l
  induction l with
  | nil => intro acc h; simpa using h
  | cons x xs ih =>
      intro acc h
      exact ih (insertDesc x acc) (insertDesc_sorted x h)

theorem jsSortDesc_filter (p : Int) (l : List QueuedRequest) :
    (jsSortDesc l).filter (fun x => decide (x.priority = p)) =
      l.filter (fun x => decide (x.priority = p)) := by
  suffices h : ∀ (l acc : List QueuedRequest), SortedDesc acc →
      (l.foldl (fun a x => insertDesc x a) acc).filter
          (fun x => decide (x.priority = p)) =
        acc.filter (fun x => decide (x.priority = p)) ++
          l.filter (fun x => decide (x.priority = p)) by
    simpa using h l [] (by simp [SortedDesc])
  intro l
  induction l with
  | nil => intro acc h; simp
  | cons x xs ih =>
      intro acc h
      rw [List.foldl_cons, ih (insertDesc x acc) (insertDesc_sorted x h),
        insertDesc_filter p x h]
      by_cases hx : x.priority = p <;> simp [List.filter, hx]

theorem foldl_insertDesc_of_sorted :
    ∀ (l acc : List QueuedRequest), SortedDesc (acc ++ l) →
      l.foldl (fun a x => insertDesc x a) acc = acc ++ l
  | [], acc, _ => by simp
  | x :: xs, acc, h => by
      have hins : insertDesc x acc = acc ++ [x] := by
        refine insertDesc_of_le ?_
        intro a ha
        have := (List.pairwise_append.mp h).2.2 a ha x (List.mem_cons_self x xs)
        exact this
      rw [List.foldl_cons, hins,
        foldl_insertDesc_of_sorted xs (acc ++ [x]) (by simpa using h)]
      simp

theorem jsSortDesc_of_sorted {l : List QueuedRequest} (h : SortedDesc l) :
    jsSortDesc l = l := by
  simpa using foldl_insertDesc_of_sorted l [] (by simpa using h)

theorem enqueueAll_eq_jsSortDesc (rs : List QueuedRequest) :
    enqueueAll rs = jsSortDesc rs := by
  suffices h : ∀ (rs acc : List QueuedRequest), SortedDesc acc →
      rs.foldl queueRequestPush acc =
        rs.foldl (fun a x => insertDesc x a) acc by
    exact h rs [] (by simp [SortedDesc])
  intro rs
  induction rs with
  | nil => intro acc h; rfl
  | cons x xs ih =>
      intro acc h
      have hpush : queueRequestPush acc x = insertDesc x acc := by
        unfold queueRequestPush jsSortDesc
        rw [List.foldl_append, foldl_insertDesc_of_sorted acc [] (by simpa using h)]
        simp
      rw [List.foldl_cons, List.foldl_cons, hpush]
      exact ih (insertDesc x acc) (insertDesc_sorted x h)

theorem execOrder_eq_map_id :
    ∀ q : List QueuedRequest, execOrder q = q.map QueuedRequest.id
  | [] => rfl
  | r :: rest => by
      have ih := execOrder_eq_map_id rest
      simp only [execOrder, List.length_cons, List.replicate_succ, drainQueue,
        List.filterMap] at ih ⊢
      simpa using ih

/-- C3: with quota always available, execution follows non-increasing priority
with FIFO order among equal priorities: any sequence of `queueRequest` calls
(push, then stable sort by priority descending) leaves the queue sorted by
priority descending with each priority band in enqueue order, and the drain
loop executes the queue front to back; in particular requests enqueued with
priorities [1,3,2] in that order execute in order [3,2,1]. -/
theorem priority_order_execution :
    (∀ rs : List QueuedRequest, SortedDesc (enqueueAll rs)) ∧
    (∀ (rs : List QueuedRequest) (p : Int),
      (enqueueAll rs).filter (fun x => decide (x.priority = p)) =
        rs.filter (fun x => decide (x.priority = p))) ∧
    (∀ q : List QueuedRequest, execOrder q = q.map QueuedRequest.id) ∧
    execOrder (enqueueAll [⟨1, 1⟩, ⟨2, 3⟩, ⟨3, 2⟩]) = [2, 3, 1] := by
  refine ⟨?_, ?_, execOrder_eq_map_id, by decide⟩
  · intro rs
    rw [enqueueAll_eq_jsSortDesc]
    exact jsSortDesc_sorted rs
  · intro rs p
    rw [enqueueAll_eq_jsSortDesc]
    exact jsSortDesc_filter p rs

/-! ## TweetCache facts -/

theorem isSortedNewestFirst_iff_pairwise :
    ∀ l : List Tweet, isSortedNewestFirst l = true ↔
      l.Pairwise (fun a b => b.created_at ≤ a.created_at)
  | [] => by simp [isSortedNewestFirst]
  | [a] => by simp [isSortedNewestFirst]
  | a :: b :: l => by
      rw [isSortedNewestFirst, Bool.and_eq_true, decide_eq_true_iff,
        isSortedNewestFirst_iff_pairwise (b :: l)]
      constructor
      · rintro ⟨hba, hbl⟩
        refine List.pairwise_cons.mpr ⟨?_, hbl⟩
        intro y hy
        rcases List.mem_cons.mp hy with hy | hy
        · exact hy ▸ hba
        · exact le_trans ((List.pairwise_cons.mp hbl).1 y hy) hba
      · intro h
        rcases List.pairwise_cons.mp h with ⟨ha, hbl⟩
        exact ⟨ha b (List.mem_cons_self b l), hbl⟩

/-- C8 counterexample: the cache for an account holds one tweet with timestamp
100; `addNewTweet` merges a distinct tweet with the older timestamp 50 at time
200.  The tweet is prepended without any re-sort, so the resulting entry is
[50, 100] — not sorted newest-first, contradicting the claimed re-sorting. -/
theorem merge_not_sorted_cex :
    (addNewTweet 200 ⟨[⟨"a", 100⟩], some 0⟩ ⟨"b", 50⟩).cache =
      [⟨"b", 50⟩, ⟨"a", 100⟩] ∧
    isSortedNewestFirst (addNewTweet 200 ⟨[⟨"a", 100⟩], some 0⟩ ⟨"b", 50⟩).cache
      = false := by
  decide

/-- C8 amended: `addNewTweet` leaves the entry untouched when a cached tweet
has the same id (including `fetchedAt`); otherwise it prepends the tweet —
without re-sorting, so newest-first order is only preserved when the incoming
tweet is at least as new as everything cached — filters to the 24-hour
retention window, truncates to `MAX_TWEETS_PER_ACCOUNT`, and refreshes
`lastFetch` to now. -/
theorem addNewTweet_merge (now : Int) (s : TCEntry) (t : Tweet) :
    (s.cache.any (fun x => decide (x.id = t.id)) = true →
      addNewTweet now s t = s) ∧
    (s.cache.any (fun x => decide (x.id = t.id)) = false →
      (addNewTweet now s t).lastFetch = some now ∧
      (addNewTweet now s t).cache.length ≤ MAX_TWEETS_PER_ACCOUNT ∧
      (∀ x ∈ (addNewTweet now s t).cache, now - DAY_MS < x.created_at) ∧
      (∀ x ∈ (addNewTweet now s t).cache, x = t ∨ x ∈ s.cache) ∧
      (now - DAY_MS < t.created_at →
        (addNewTweet now s t).cache.head? = some t) ∧
      ((∀ x ∈ s.cache, x.created_at ≤ t.created_at) →
        isSortedNewestFirst s.cache = true →
        isSortedNewestFirst (addNewTweet now s t).cache = true)) := by
  constructor
  · intro h
    simp [addNewTweet, h]
  · intro h
    have hres : (addNewTweet now s t).cache =
        ((t :: s.cache).filter
          (fun x => decide (now - DAY_MS < x.created_at))).take
          MAX_TWEETS_PER_ACCOUNT := by
      simp [addNewTweet, h]
    have hmemfil : ∀ x ∈ (addNewTweet now s t).cache,
        x ∈ (t :: s.cache).filter (fun y => decide (now - DAY_MS < y.created_at)) := by
      intro x hx
      rw [hres] at hx
      exact List.mem_of_mem_take hx
    refine ⟨by simp [addNewTweet, h], ?_, ?_, ?_, ?_, ?_⟩
    · rw [hres]
      exact List.length_take_le _ _
    · intro x hx
      have := List.mem_filter.mp (hmemfil x hx)
      simpa using this.2
    · intro x hx
      have := List.mem_filter.mp (hmemfil x hx)
      simpa using List.mem_cons.mp this.1
    · intro ht
      rw [hres, List.filter_cons_of_pos (by simpa using ht)]
      simp [MAX_TWEETS_PER_ACCOUNT]
    · intro hle hsorted
      rw [isSortedNewestFirst_iff_pairwise] at hsorted ⊢
      have hcons : (t :: s.cache).Pairwise
          (fun a b => b.created_at ≤ a.created_at) :=
        List.pairwise_cons.mpr ⟨hle, hsorted⟩
      have hsub : List.Sublist (addNewTweet now s t).cache (t :: s.cache) := by
        rw [hres]
        exact List.Sublist.trans (List.take_sublist _ _) (List.filter_sublist _)
      exact hcons.sublist hsub

/-- Witness for C8 amended: a duplicate id leaves the entry (and its
`lastFetch`) untouched; a fresh distinct tweet refreshes `lastFetch` and, being
newest, keeps the entry sorted. -/
theorem addNewTweet_merge_w :
    addNewTweet 200 ⟨[⟨"a", 100⟩], some 0⟩ ⟨"a", 150⟩ = ⟨[⟨"a", 100⟩], some 0⟩ ∧
    (addNewTweet 200 ⟨[⟨"a", 100⟩], some 0⟩ ⟨"b", 150⟩).lastFetch = some 200 ∧
    isSortedNewestFirst
      (addNewTweet 200 ⟨[⟨"a", 100⟩], some 0⟩ ⟨"b", 150⟩).cache = true :=
  ⟨(addNewTweet_merge 200 ⟨[⟨"a", 100⟩], some 0⟩ ⟨"a", 150⟩).1 (by decide),
   ((addNewTweet_merge 200 ⟨[⟨"a", 100⟩], some 0⟩ ⟨"b", 150⟩).2 (by decide)).1,
   (((addNewTweet_merge 200 ⟨[⟨"a", 100⟩], some 0⟩ ⟨"b", 150⟩).2
       (by decide)).2.2.2.2.2) (by decide) (by decide)⟩

/-- C9 counterexample: account "cz_binance" has `lastSyncAt = 0`; a sync at
t=50000 (outside the 45000ms cooldown) attempts a fetch that fails.
`lastSyncAt` stays 0 — it is not updated after the failed attempt — so a second
sync at t=51000, only 1s after the failed attempt, attempts another fetch
instead of observing the cooldown. -/
theorem sync_error_keeps_lastSync_cex :
    let st : SyncState := ⟨fun _ => some 0⟩
    (syncAccount 50000 50000 SyncFetch.err st "cz_binance").2 = true ∧
    (syncAccount 50000 50000 SyncFetch.err st "cz_binance").1.accountSync
      "cz_binance" = some 0 ∧
    (syncAccount 51000 51000 SyncFetch.err
      (syncAccount 50000 50000 SyncFetch.err st "cz_binance").1
      "cz_binance").2 = true := by
  decide

/-- C9 amended: within the cooldown no fetch is attempted and the state is
unchanged; outside the cooldown a fetch is attempted, and `lastSyncAt` is
updated only when the fetch (with its save and notifications) succeeds — on a
failure the state is wholly unchanged, so a persistently failing account is
fetched again by the next sync with no cooldown protection. -/
theorem sync_lastSync_success_only (now nowSet : Nat) (o : SyncFetch)
    (st : SyncState) (u : String) (n : Nat) :
    (now - (st.accountSync u).getD 0 < minSyncIntervalMs →
      syncAccount now nowSet o st u = (st, false)) ∧
    (minSyncIntervalMs ≤ now - (st.accountSync u).getD 0 →
      (syncAccount now nowSet (SyncFetch.ok n) st u).2 = true ∧
      (syncAccount now nowSet (SyncFetch.ok n) st u).1.accountSync u =
        some nowSet ∧
      syncAccount now nowSet SyncFetch.err st u = (st, true)) := by
  constructor
  · intro h
    cases o <;> simp [syncAccount, h]
  · intro h
    have h2 : ¬ (now - (st.accountSync u).getD 0 < minSyncIntervalMs) :=
      not_lt_of_le h
    refine ⟨by simp [syncAccount, h2], by simp [syncAccount, h2], by
      simp [syncAccount, h2]⟩

/-- Witness for C9 amended, on "cz_binance" with an empty sync map. -/
theorem sync_lastSync_success_only_w :
    syncAccount 10 10 SyncFetch.err ⟨fun _ => none⟩ "cz_binance" =
      (⟨fun _ => none⟩, false) ∧
    (syncAccount 100000 100001 (SyncFetch.ok 3) ⟨fun _ => none⟩
        "cz_binance").1.accountSync "cz_binance" = some 100001 ∧
    syncAccount 100000 100001 SyncFetch.err ⟨fun _ => none⟩ "cz_binance" =
      (⟨fun _ => none⟩, true) :=
  ⟨(sync_lastSync_success_only 10 10 SyncFetch.err ⟨fun _ => none⟩
      "cz_binance" 3).1 (by decide),
   ((sync_lastSync_success_only 100000 100001 SyncFetch.err ⟨fun _ => none⟩
      "cz_binance" 3).2 (by decide)).2.1,
   ((sync_lastSync_success_only 100000 100001 SyncFetch.err ⟨fun _ => none⟩
      "cz_binance" 3).2 (by decide)).2.2⟩

/-! ## Backfill facts -/

theorem backfillLoop_fetch_step (fetch : Nat → FetchResult)
    (budget startAccount fuel fetchIdx requestsUsed : Nat)
    (st : BackfillState) (acc : AccountProgress)
    (hb : requestsUsed < budget)
    (hcur : st.accountProgress.get? st.currentAccount = some acc)
    (hcc : acc.completed = false) :
    ∃ (v : AccountProgress) (ru2 : Nat),
      backfillLoop fetch budget startAccount (fuel + 1) fetchIdx requestsUsed st =
        ((backfillLoop fetch budget startAccount fuel (fetchIdx + 1) ru2
            ⟨(st.currentAccount + 1) % st.accountProgress.length,
             st.accountProgress.set st.currentAccount v⟩).1,
         BEvent.fetch st.currentAccount ::
           (backfillLoop fetch budget startAccount fuel (fetchIdx + 1) ru2
            ⟨(st.currentAccount + 1) % st.accountProgress.length,
             st.accountProgress.set st.currentAccount v⟩).2) ∧
      (fetch fetchIdx = FetchResult.ok [] → v = { acc with completed := true }) := by
  rw [backfillLoop]
  simp only [if_pos hb, hcur, hcc, Bool.false_eq_true, if_false]
  cases hf : fetch fetchIdx with
  | ok ts =>
      cases hl : ts.getLast? with
      | some lastId =>
          refine ⟨{ acc with lastBackfillId := some lastId }, requestsUsed + 2,
            by simp only [hl, hcc], ?_⟩
          intro he
          cases he
          simp at hl
      | none =>
          exact ⟨{ acc with completed := true }, requestsUsed + 2,
            by simp only [hl, hcc], fun _ => rfl⟩
  | err =>
      refine ⟨acc, requestsUsed + 1, by simp only [hcc], ?_⟩
      intro he
      cases he

theorem backfillLoop_completed_invariant (fetch : Nat → FetchResult)
    (budget startAccount : Nat) :
    ∀ (fuel fetchIdx requestsUsed : Nat) (st : BackfillState) (i : Nat)
      (a : AccountProgress),
      st.accountProgress.get? i = some a → a.completed = true →
      noFetchBeforeReset i
        (backfillLoop fetch budget startAccount fuel fetchIdx requestsUsed st).2 ∧
      (BEvent.reset ∉
          (backfillLoop fetch budget startAccount fuel fetchIdx requestsUsed st).2 →
        ∃ a2, (backfillLoop fetch budget startAccount fuel fetchIdx requestsUsed
            st).1.accountProgress.get? i = some a2 ∧ a2.completed = true)
  | 0, fetchIdx, requestsUsed, st, i, a, ha, hc =>
      ⟨trivial, fun _ => ⟨a, ha, hc⟩⟩
  | fuel + 1, fetchIdx, requestsUsed, st, i, a, ha, hc => by
      by_cases hb : requestsUsed < budget
      · cases hcur : st.accountProgress.get? st.currentAccount with
        | none =>
            rw [backfillLoop]
            simp only [if_pos hb, hcur]
            exact ⟨trivial, fun _ => ⟨a, ha, hc⟩⟩
        | some acc =>
            by_cases hcc : acc.completed = true
            · rw [backfillLoop]
              simp only [if_pos hb, hcur, hcc, if_true]
              by_cases hwrap :
                  (st.currentAccount + 1) % st.accountProgress.length =
                    startAccount
              · simp only [if_pos hwrap]
                exact ⟨trivial,
                  fun hmem => absurd (List.mem_singleton_self _) hmem⟩
              · simp only [if_neg hwrap]
                exact backfillLoop_completed_invariant fetch budget startAccount
                  fuel fetchIdx requestsUsed _ i a ha hc
            · have hcc2 : acc.completed = false := by
                simpa using hcc
              obtain ⟨v, ru2, heq, -⟩ := backfillLoop_fetch_step fetch budget
                startAccount fuel fetchIdx requestsUsed st acc hb hcur hcc2
              rw [heq]
              have hji : st.currentAccount ≠ i := by
                intro he
                rw [he, ha] at hcur
                cases hcur
                rw [hc] at hcc2
                cases hcc2
              have hset : (st.accountProgress.set st.currentAccount v).get? i =
                  some a := by
                rw [List.get?_set_ne v _ hji]
                exact ha
              have ih := backfillLoop_completed_invariant fetch budget
                startAccount fuel (fetchIdx + 1) ru2
                ⟨(st.currentAccount + 1) % st.accountProgress.length,
                 st.accountProgress.set st.currentAccount v⟩ i a hset hc
              refine ⟨⟨hji, ih.1⟩, ?_⟩
              intro hmem
              exact ih.2 (fun hx => hmem (List.mem_cons_of_mem _ hx))
      · rw [backfillLoop]
        simp only [if_neg hb]
        exact ⟨trivial, fun _ => ⟨a, ha, hc⟩⟩

/-- C7: when the backfill fetch for the current (not yet completed) account
returns an empty result, the loop emits that one fetch, the account's
`completed` flag is set, no further fetch for that account is issued before a
full-cycle reset event, and if no reset occurs in this session the account is
still marked completed in the final state (so later sessions skip it too,
until a reset clears every account's flag). -/
theorem backfill_empty_completes (fetch : Nat → FetchResult)
    (budget startAccount fuel fetchIdx requestsUsed : Nat)
    (st : BackfillState) (acc : AccountProgress)
    (hcur : st.accountProgress.get? st.currentAccount = some acc)
    (hcc : acc.completed = false)
    (hb : requestsUsed < budget)
    (hempty : fetch fetchIdx = FetchResult.ok []) :
    (backfillLoop fetch budget startAccount (fuel + 1) fetchIdx requestsUsed
        st).2.head? = some (BEvent.fetch st.currentAccount) ∧
    noFetchBeforeReset st.currentAccount
      (backfillLoop fetch budget startAccount (fuel + 1) fetchIdx requestsUsed
        st).2.tail ∧
    (BEvent.reset ∉ (backfillLoop fetch budget startAccount (fuel + 1) fetchIdx
        requestsUsed st).2 →
      ∃ a2, (backfillLoop fetch budget startAccount (fuel + 1) fetchIdx
          requestsUsed st).1.accountProgress.get? st.currentAccount = some a2 ∧
        a2.completed = true) := by
  obtain ⟨v, ru2, heq, hv⟩ := backfillLoop_fetch_step fetch budget startAccount
    fuel fetchIdx requestsUsed st acc hb hcur hcc
  have hvc : v.completed = true := by
    rw [hv hempty]
  have hlen : st.currentAccount < st.accountProgress.length := by
    by_contra hle
    rw [List.get?_eq_none.mpr (le_of_not_lt hle)] at hcur
    cases hcur
  have hget : (st.accountProgress.set st.currentAccount v).get?
      st.currentAccount = some v :=
    List.get?_set_eq_of_lt v hlen
  have inv := backfillLoop_completed_invariant fetch budget startAccount fuel
    (fetchIdx + 1) ru2
    ⟨(st.currentAccount + 1) % st.accountProgress.length,
     st.accountProgress.set st.currentAccount v⟩
    st.currentAccount v hget hvc
  rw [heq]
  refine ⟨rfl, inv.1, ?_⟩
  intro hmem
  exact inv.2 (fun hx => hmem (List.mem_cons_of_mem _ hx))

/-- Witness for C7: two accounts, the first fetch returns empty; the session
fetches account 0 once, then account 1, and no reset occurs. -/
theorem backfill_empty_completes_w :
    (backfillLoop
        (fun n => if n = 0 then FetchResult.ok [] else FetchResult.ok ["t"])
        10 0 (3 + 1) 0 0
        ⟨0, [⟨"cz_binance", none, false⟩, ⟨"CookerFlips", none, false⟩]⟩).2.head?
      = some (BEvent.fetch 0) ∧
    noFetchBeforeReset 0
      ((backfillLoop
          (fun n => if n = 0 then FetchResult.ok [] else FetchResult.ok ["t"])
          10 0 (3 + 1) 0 0
          ⟨0, [⟨"cz_binance", none, false⟩,
               ⟨"CookerFlips", none, false⟩]⟩).2.tail) ∧
    (BEvent.reset ∉ (backfillLoop
        (fun n => if n = 0 then FetchResult.ok [] else FetchResult.ok ["t"])
        10 0 (3 + 1) 0 0
        ⟨0, [⟨"cz_binance", none, false⟩, ⟨"CookerFlips", none, false⟩]⟩).2 →
      ∃ a2, (backfillLoop
          (fun n => if n = 0 then FetchResult.ok [] else FetchResult.ok ["t"])
          10 0 (3 + 1) 0 0
          ⟨0, [⟨"cz_binance", none, false⟩,
               ⟨"CookerFlips", none, false⟩]⟩).1.accountProgress.get? 0 =
        some a2 ∧ a2.completed = true) :=
  backfill_empty_completes
    (fun n => if n = 0 then FetchResult.ok [] else FetchResult.ok ["t"])
    10 0 3 0 0
    ⟨0, [⟨"cz_binance", none, false⟩, ⟨"CookerFlips", none, false⟩]⟩
    ⟨"cz_binance", none, false⟩ (by decide) (by decide) (by decide) (by decide)

/-! ## Drain-loop quota invariant: helper lemmas -/

theorem canMakeRequest_snd_db (limits : String → Option LimitCfg)
    (endpoint : String) (acc : Option String) (now : Nat) (r : Bool)
    (s : RLState) : (canMakeRequest limits endpoint acc now r s).2.db = s.db := by
  unfold canMakeRequest
  dsimp only
  split
  · rfl
  · split <;> rfl

theorem canMakeRequest_cache_key (limits : String → Option LimitCfg)
    (endpoint : String) (acc : Option String) (now : Nat) (s : RLState)
    (lim : LimitCfg) (hlim : limits endpoint = some lim) :
    (canMakeRequest limits endpoint acc now true s).2.cache (rlKey endpoint acc)
      = some
        { endpoint := endpoint
          windowStart := windowStart lim.windowMs now
          count := s.db (rlKey endpoint acc) (windowStart lim.windowMs now)
          limit := lim.requests
          remaining := (lim.requests : Int) -
            (s.db (rlKey endpoint acc) (windowStart lim.windowMs now) : Int)
          resetTime := windowStart lim.windowMs now + lim.windowMs
          lastUpdated := now } := by
  simp [canMakeRequest, hlim]

theorem getWaitTime_after_check (limits : String → Option LimitCfg)
    (endpoint : String) (acc : Option String) (now t : Nat) (s : RLState)
    (lim : LimitCfg) (hlim : limits endpoint = some lim)
    (hfull : ¬ s.db (rlKey endpoint acc) (windowStart lim.windowMs now) <
      lim.requests) :
    getWaitTime endpoint acc t (canMakeRequest limits endpoint acc now true s).2
      = (windowStart lim.windowMs now + lim.windowMs) - t := by
  unfold getWaitTime
  rw [canMakeRequest_cache_key limits endpoint acc now s lim hlim]
  dsimp only
  rw [if_neg (by omega)]

theorem recordRequest_writeOk_false (limits : String → Option LimitCfg)
    (endpoint : String) (acc : Option String) (headers : Option TwitterHeaders)
    (now : Nat) (s : RLState) :
    recordRequest limits endpoint acc headers now false s = s := by
  unfold recordRequest
  dsimp only
  split
  · rfl
  · rfl

theorem recordRequest_db_apply (limits : String → Option LimitCfg)
    (endpoint : String) (acc : Option String) (headers : Option TwitterHeaders)
    (now : Nat) (s : RLState) (lim : LimitCfg)
    (hlim : limits endpoint = some lim) (k : String) (w : Nat) :
    (recordRequest limits endpoint acc headers now true s).db k w =
      if k = rlKey endpoint acc ∧ w = windowStart lim.windowMs now
      then s.db k w + 1 else s.db k w := by
  cases headers with
  | none => simp [recordRequest, hlim]
  | some h => simp [recordRequest, hlim, updateFromTwitterHeaders_db]

theorem procStep_eq (limits : String → Option LimitCfg) (endpoint : String)
    (acc : Option String) (lim : LimitCfg) (hlim : limits endpoint = some lim)
    (it : ProcIter) (hread : it.readOk = true) (p : Nat × RLState) :
    procStep limits endpoint acc it p =
      (let t :=
        if p.2.db (rlKey endpoint acc) (windowStart lim.windowMs p.1) <
            lim.requests
        then p.1
        else (p.1 + it.a) +
          ((windowStart lim.windowMs p.1 + lim.windowMs) - (p.1 + it.a))
       let s1 := (canMakeRequest limits endpoint acc p.1 true p.2).2
       if it.ok then
         (t + it.b + 50 + it.post,
          recordRequest limits endpoint acc it.headers (t + it.b) it.writeOk s1)
       else (t + it.b + it.post, s1)) := by
  unfold procStep
  dsimp only
  rw [hread, canMakeRequest_fst limits endpoint acc p.1 p.2 lim hlim]
  by_cases hc : p.2.db (rlKey endpoint acc) (windowStart lim.windowMs p.1) <
      lim.requests
  · simp only [decide_eq_true_eq, if_pos hc]
  · simp only [decide_eq_true_eq, if_neg hc,
      getWaitTime_after_check limits endpoint acc p.1 (p.1 + it.a) p.2 lim hlim
        hc]

theorem procStep_preserves (limits : String → Option LimitCfg)
    (endpoint : String) (acc : Option String) (lim : LimitCfg)
    (hlim : limits endpoint = some lim)
    (hreq : 1 ≤ lim.requests) (hw : 0 < lim.windowMs)
    (it : ProcIter) (hread : it.readOk = true) (p : Nat × RLState)
    (h1 : ∀ ws, p.2.db (rlKey endpoint acc) ws ≤ lim.requests)
    (h2 : ∀ ws, windowStart lim.windowMs p.1 < ws →
      p.2.db (rlKey endpoint acc) ws = 0) :
    (∀ ws, (procStep limits endpoint acc it p).2.db (rlKey endpoint acc) ws ≤
      lim.requests) ∧
    (∀ ws, windowStart lim.windowMs (procStep limits endpoint acc it p).1 < ws →
      (procStep limits endpoint acc it p).2.db (rlKey endpoint acc) ws = 0) := by
  rw [procStep_eq limits endpoint acc lim hlim it hread p]
  dsimp only
  by_cases hc : p.2.db (rlKey endpoint acc) (windowStart lim.windowMs p.1) <
      lim.requests
  case pos =>
    simp only [if_pos hc]
    by_cases hok : it.ok = true
    · simp only [if_pos hok]
      by_cases hwk : it.writeOk = true
      · rw [hwk]
        constructor
        · intro ws2
          rw [recordRequest_db_apply limits endpoint acc it.headers (p.1 + it.b)
            _ lim hlim, canMakeRequest_snd_db]
          by_cases hws : ws2 = windowStart lim.windowMs (p.1 + it.b)
          · rw [if_pos ⟨rfl, hws⟩]
            have hge : windowStart lim.windowMs p.1 ≤
                windowStart lim.windowMs (p.1 + it.b) :=
              windowStart_mono _ (by omega)
            by_cases heq : windowStart lim.windowMs (p.1 + it.b) =
                windowStart lim.windowMs p.1
            · rw [hws, heq]
              omega
            · have hgt : windowStart lim.windowMs p.1 <
                  windowStart lim.windowMs (p.1 + it.b) :=
                lt_of_le_of_ne hge (fun h => heq h.symm)
              rw [hws, h2 _ hgt]
              omega
          · rw [if_neg (fun h => hws h.2)]
            exact h1 ws2
        · intro ws2 hlt
          rw [recordRequest_db_apply limits endpoint acc it.headers (p.1 + it.b)
            _ lim hlim, canMakeRequest_snd_db]
          have hle : windowStart lim.windowMs (p.1 + it.b) ≤
              windowStart lim.windowMs (p.1 + it.b + 50 + it.post) :=
            windowStart_mono _ (by omega)
          rw [if_neg (fun h => by omega)]
          refine h2 ws2 ?_
          have := windowStart_mono lim.windowMs
            (show p.1 ≤ p.1 + it.b + 50 + it.post by omega)
          omega
      · have hwk2 : it.writeOk = false := by simpa using hwk
        rw [hwk2, recordRequest_writeOk_false]
        constructor
        · intro ws2
          rw [canMakeRequest_snd_db]
          exact h1 ws2
        · intro ws2 hlt
          rw [canMakeRequest_snd_db]
          refine h2 ws2 ?_
          have := windowStart_mono lim.windowMs
            (show p.1 ≤ p.1 + it.b + 50 + it.post by omega)
          omega
    · simp only [if_neg hok]
      constructor
      · intro ws2
        rw [canMakeRequest_snd_db]
        exact h1 ws2
      · intro ws2 hlt
        rw [canMakeRequest_snd_db]
        refine h2 ws2 ?_
        have := windowStart_mono lim.windowMs
          (show p.1 ≤ p.1 + it.b + it.post by omega)
        omega
  case neg =>
    simp only [if_neg hc]
    have htw : windowStart lim.windowMs p.1 + lim.windowMs ≤
        p.1 + it.a +
          (windowStart lim.windowMs p.1 + lim.windowMs - (p.1 + it.a)) := by
      omega
    have hnow : p.1 < windowStart lim.windowMs p.1 + lim.windowMs :=
      lt_windowStart_add hw p.1
    by_cases hok : it.ok = true
    · simp only [if_pos hok]
      by_cases hwk : it.writeOk = true
      · rw [hwk]
        have hwsR : windowStart lim.windowMs p.1 + lim.windowMs ≤
            windowStart lim.windowMs
              (p.1 + it.a +
                (windowStart lim.windowMs p.1 + lim.windowMs - (p.1 + it.a)) +
                it.b) := by
          have h3 := windowStart_mono lim.windowMs
            (show windowStart lim.windowMs p.1 + lim.windowMs ≤
              p.1 + it.a +
                (windowStart lim.windowMs p.1 + lim.windowMs - (p.1 + it.a)) +
                it.b by omega)
          rwa [windowStart_add_w hw p.1] at h3
        constructor
        · intro ws2
          rw [recordRequest_db_apply limits endpoint acc it.headers _ _ lim hlim,
            canMakeRequest_snd_db]
          by_cases hws : ws2 = windowStart lim.windowMs
              (p.1 + it.a +
                (windowStart lim.windowMs p.1 + lim.windowMs - (p.1 + it.a)) +
                it.b)
          · rw [if_pos ⟨rfl, hws⟩]
            have hz : p.2.db (rlKey endpoint acc) ws2 = 0 := by
              refine h2 ws2 ?_
              omega
            rw [hz]
            omega
          · rw [if_neg (fun h => hws h.2)]
            exact h1 ws2
        · intro ws2 hlt
          rw [recordRequest_db_apply limits endpoint acc it.headers _ _ lim hlim,
            canMakeRequest_snd_db]
          have hle : windowStart lim.windowMs
              (p.1 + it.a +
                (windowStart lim.windowMs p.1 + lim.windowMs - (p.1 + it.a)) +
                it.b) ≤
              windowStart lim.windowMs
                (p.1 + it.a +
                  (windowStart lim.windowMs p.1 + lim.windowMs - (p.1 + it.a)) +
                  it.b + 50 + it.post) :=
            windowStart_mono _ (by omega)
          rw [if_neg (fun h => by omega)]
          refine h2 ws2 ?_
          omega
      · have hwk2 : it.writeOk = false := by simpa using hwk
        rw [hwk2, recordRequest_writeOk_false]
        constructor
        · intro ws2
          rw [canMakeRequest_snd_db]
          exact h1 ws2
        · intro ws2 hlt
          rw [canMakeRequest_snd_db]
          refine h2 ws2 ?_
          have := windowStart_mono lim.windowMs
            (show p.1 ≤ p.1 + it.a +
              (windowStart lim.windowMs p.1 + lim.windowMs - (p.1 + it.a)) +
              it.b + 50 + it.post by omega)
          omega
    · simp only [if_neg hok]
      constructor
      · intro ws2
        rw [canMakeRequest_snd_db]
        exact h1 ws2
      · intro ws2 hlt
        rw [canMakeRequest_snd_db]
        refine h2 ws2 ?_
        have := windowStart_mono lim.windowMs
          (show p.1 ≤ p.1 + it.a +
            (windowStart lim.windowMs p.1 + lim.windowMs - (p.1 + it.a)) +
            it.b + it.post by omega)
        omega

theorem procRun_preserves (limits : String → Option LimitCfg)
    (endpoint : String) (acc : Option String) (lim : LimitCfg)
    (hlim : limits endpoint = some lim)
    (hreq : 1 ≤ lim.requests) (hw : 0 < lim.windowMs) :
    ∀ (its : List ProcIter), (∀ it ∈ its, it.readOk = true) →
      ∀ (p : Nat × RLState),
      (∀ ws, p.2.db (rlKey endpoint acc) ws ≤ lim.requests) →
      (∀ ws, windowStart lim.windowMs p.1 < ws →
        p.2.db (rlKey endpoint acc) ws = 0) →
      ∀ ws, (procRun limits endpoint acc its p).2.db (rlKey endpoint acc) ws ≤
        lim.requests
  | [], _, p, h1, _, ws => h1 ws
  | it :: rest, hread, p, h1, h2, ws => by
      have hstep := procStep_preserves limits endpoint acc lim hlim hreq hw it
        (hread it (List.mem_cons_self it rest)) p h1 h2
      have hrest : ∀ x ∈ rest, x.readOk = true :=
        fun x hx => hread x (List.mem_cons_of_mem it hx)
      exact procRun_preserves limits endpoint acc lim hlim hreq hw rest hrest
        (procStep limits endpoint acc it p) hstep.1 hstep.2 ws

/-- C1 amended: provided every admission check's durable read succeeds, a
drain loop run for one endpoint key — any number of iterations, any request
durations, any sleep slack, any provider headers, any execution or durable
write failures — never lets the recorded count of any quota window exceed the
endpoint's configured limit; and an admission check (with a successful read)
returns true exactly when the current window's recorded count is below the
configured limit.  (When an admission read fails, the loop fails closed at the
check but still executes and records after a wait computed from the stale
cache, which can exceed the limit — see the counterexample.) -/
theorem drain_count_le_limit (limits : String → Option LimitCfg)
    (endpoint : String) (acc : Option String) (lim : LimitCfg)
    (hlim : limits endpoint = some lim)
    (hreq : 1 ≤ lim.requests) (hw : 0 < lim.windowMs)
    (its : List ProcIter) (hread : ∀ it ∈ its, it.readOk = true) (t0 : Nat) :
    (∀ ws, (procRun limits endpoint acc its (t0, rlS0)).2.db
      (rlKey endpoint acc) ws ≤ lim.requests) ∧
    (∀ (now : Nat) (s : RLState),
      (canMakeRequest limits endpoint acc now true s).1 = true ↔
        s.db (rlKey endpoint acc) (windowStart lim.windowMs now) <
          lim.requests) := by
  constructor
  · exact procRun_preserves limits endpoint acc lim hlim hreq hw its hread
      (t0, rlS0) (fun _ => by simp [rlS0]) (fun _ _ => rfl)
  · intro now s
    rw [canMakeRequest_fst limits endpoint acc now s lim hlim]
    simp

/-- Witness for C1 amended: three all-successful iterations on "streamRules"
(pro plan, limit 20) starting at time 0. -/
theorem drain_count_le_limit_w :
    (∀ ws, (procRun proLimits "streamRules" none
        (List.replicate 3 (⟨true, true, true, none, 0, 0, 0⟩ : ProcIter))
        (0, rlS0)).2.db (rlKey "streamRules" none) ws ≤ 20) ∧
    (∀ (now : Nat) (s : RLState),
      (canMakeRequest proLimits "streamRules" none now true s).1 = true ↔
        s.db (rlKey "streamRules" none) (windowStart 900000 now) < 20) :=
  drain_count_le_limit proLimits "streamRules" none ⟨20, 15 * 60 * 1000⟩
    (by decide) (by decide) (by decide)
    (List.replicate 3 (⟨true, true, true, none, 0, 0, 0⟩ : ProcIter))
    (by decide) 0

set_option maxRecDepth 10000 in
/-- C1 counterexample: a run on "streamRules" (pro plan, configured limit 20)
in which every durable access succeeds except the admission read of the 21st
iteration.  Twenty successful iterations fill window 0 to the limit; the 20th
response carries provider headers claiming 5 remaining, which land in the
cache.  The 21st admission check's database read throws, so `canMakeRequest`
fails closed — but `processQueue` still executes the request after
`getWaitTime`, which trusts the header-poisoned cache (remaining 5 > 0) and
waits 0ms.  The request is recorded in the same window: its durable count
reaches 21, exceeding the configured limit of 20. -/
theorem drain_overrun_on_failed_read_cex :
    let its := List.replicate 19 (⟨true, true, true, none, 0, 0, 0⟩ : ProcIter)
      ++ [⟨true, true, true, some ⟨some 5, some 1, none⟩, 0, 0, 0⟩,
          ⟨false, true, true, none, 0, 0, 0⟩]
    proLimits "streamRules" = some ⟨20, 900000⟩ ∧
    (procRun proLimits "streamRules" none its (0, rlS0)).2.db "streamRules" 0
      = 21 := by
  decide

/-- Witness for C5: the prior window (window 0) holds 279 of 280 requests; the
check at t=900000 (the next window) observes count 0 and admits. -/
theorem window_rollover_zero_w :
    (canMakeRequest proLimits "userTimeline" none 900000 true
      ⟨fun _ w => if w = 0 then 279 else 0, fun _ => none⟩).1 = true ∧
    ((canMakeRequest proLimits "userTimeline" none 900000 true
      ⟨fun _ w => if w = 0 then 279 else 0, fun _ => none⟩).2.cache
        (rlKey "userTimeline" none)).map CacheEntry.count = some 0 :=
  window_rollover_zero proLimits "userTimeline" none ⟨280, 15 * 60 * 1000⟩
    0 900000 ⟨fun _ w => if w = 0 then 279 else 0, fun _ => none⟩
    (by decide) (by decide)
    (fun w hw => if_neg (Nat.pos_iff_ne_zero.mp (by simpa [windowStart] using hw)))
    (by decide)
